import Mathlib

/-! airprint-debug-proxy: the identity resolver, the transcript writer and the proxy constructor.

A shallow embedding of `internal/arp.go`, `internal/debuglog.go` and `internal/proxy.go`.

Conventions of the embedding

* A Go `string`, and a `[]byte` written to the log, is a Lean `String`.  The source only
  concatenates texts, compares them, and cuts them at ASCII separators or at Unicode white
  space, and on well-formed UTF-8 these act alike on bytes and on code points.  The body of
  a request or response, which the source moves around whole, is a `List UInt8`.
* An `os.File` is the text it stores, a closed flag and the record of the method calls made
  on it; a method called on a closed handle fails with `os.ErrClosed` and stores nothing,
  as the Go library documents.
* A Go `error` is its message, a `String`; a Go result pair `(v, err)` is an `Except String`.
* What the source obtains from the operating system or from the Go standard library is an
  explicit input: the lines of `/proc/net/arp`, the output of `arp -a`, `runtime.GOOS`,
  `net.SplitHostPort`, `url.Parse`, `os.Create`, the clock, `httputil.DumpRequest` and
  `httputil.DumpResponse`.
* Stateful code is state passing: a method of `*DebugLogger` returns the logger it leaves.
-/

namespace AirPrint

deriving instance DecidableEq for Except

/-! ## Text primitives of the Go standard library used by the source -/

/-- The predicate `unicode.IsSpace`: the Latin-1 white space characters, and beyond Latin-1 the
characters of the Unicode property White_Space. -/
def IsSpace (c : Char) : Bool :=
  let n := c.toNat
  if n ≤ 0xFF then
    n == 0x09 || n == 0x0A || n == 0x0B || n == 0x0C || n == 0x0D || n == 0x20
      || n == 0x85 || n == 0xA0
  else
    n == 0x1680 || (0x2000 ≤ n && n ≤ 0x200A) || n == 0x2028 || n == 0x2029
      || n == 0x202F || n == 0x205F || n == 0x3000

/-- The scan of `strings.Fields`: `acc` holds, reversed, the characters of the field being
read; a white space character ends the field, and an empty field is never emitted. -/
def fieldsLoop : List Char → List Char → List String
  | [], acc => if acc.isEmpty then [] else [String.mk acc.reverse]
  | c :: cs, acc =>
      if IsSpace c then
        if acc.isEmpty then fieldsLoop cs [] else String.mk acc.reverse :: fieldsLoop cs []
      else fieldsLoop cs (c :: acc)

/-- The function `strings.Fields`: the maximal runs of characters that are not white space. -/
def Fields (s : String) : List String :=
  fieldsLoop s.data []

/-- The scan of `strings.Split` for a separator that is not empty: `skip` counts the characters
of a separator just matched that are still to be passed over, `acc` holds the piece being
read, reversed. -/
def splitLoop (sep : List Char) : Nat → List Char → List Char → List String
  | _, [], acc => [String.mk acc.reverse]
  | skip + 1, _ :: cs, acc => splitLoop sep skip cs acc
  | 0, c :: cs, acc =>
      if sep.isPrefixOf (c :: cs) then
        String.mk acc.reverse :: splitLoop sep (sep.length - 1) cs []
      else splitLoop sep 0 cs (c :: acc)

/-- The function `strings.Split`: the pieces of `s` between the occurrences of `sep`, taken
from the left and not overlapping; an empty separator cuts after every character. -/
def Split (s sep : String) : List String :=
  if sep.data.isEmpty then s.data.map fun c => String.mk [c]
  else splitLoop sep.data 0 s.data []

/-- Whether `sub` starts at some position of the given text. -/
def containsLoop (sub : List Char) : List Char → Bool
  | [] => sub.isEmpty
  | c :: cs => sub.isPrefixOf (c :: cs) || containsLoop sub cs

/-- The function `strings.Contains`: `substr` occurs within `s`. -/
def Contains (s substr : String) : Bool :=
  containsLoop substr.data s.data

/-- The function `strings.Repeat`: `count` copies of `s`. -/
def Repeat (s : String) (count : Nat) : String :=
  String.join (List.replicate count s)

/-! ## internal/arp.go -/

/-- The loop `for scanner.Scan()` of `getMACFromArpFile` over the lines that follow the header:
the first line with at least four fields whose first field is `ip` yields its fourth field. -/
def scanArpLines (ip : String) : List String → Except String String
  | [] => .error "not found in /proc/net/arp"
  | line :: rest =>
      let fields := Fields line
      if h : 4 ≤ fields.length then
        if fields[0] = ip then .ok fields[3] else scanArpLines ip rest
      else scanArpLines ip rest

/-- The function `getMACFromArpFile`.  `table` is what opening and scanning `/proc/net/arp`
gives: the error of `os.Open`, or the lines the scanner delivers.  The first `scanner.Scan()`
drops the header line. -/
def getMACFromArpFile (table : Except String (List String)) (ip : String) :
    Except String String :=
  match table with
  | .error err => .error err
  | .ok lines => scanArpLines ip (lines.drop 1)

/-- The inner loop `for i, part := range parts` of `getMACFromArpCmd`: at position `i` the
argument is `parts[i:]`, so `i+1 < len(parts)` says that the rest is not empty and
`parts[i+1]` is its head. -/
def atLoop : List String → Option String
  | [] => none
  | part :: rest =>
      match rest with
      | next :: _ => if part = "at" then some next else atLoop rest
      | [] => atLoop rest

/-- The outer loop `for _, line := range lines` of `getMACFromArpCmd`. -/
def scanArpOutput (ip : String) : List String → Except String String
  | [] => .error ("MAC not found for IP " ++ ip)
  | line :: rest =>
      if Contains line ip then
        match atLoop (Split line " ") with
        | some mac => .ok mac
        | none => scanArpOutput ip rest
      else scanArpOutput ip rest

/-- The function `getMACFromArpCmd`.  `run` is what running `arp -a` gives: the error of
`cmd.Run`, or the captured standard output. -/
def getMACFromArpCmd (run : Except String String) (ip : String) : Except String String :=
  match run with
  | .error err => .error err
  | .ok out => scanArpOutput ip (Split out "\n")

/-! ## The file behind the session: `*os.File` -/

/-- A method call made on the log file. -/
inductive FileOp where
  | write (text : String)
  | sync
  | close
  deriving DecidableEq, Repr

/-- The state of an `os.File`: the text stored in the file, whether the handle has been closed,
and the method calls made on the handle so far, oldest first. -/
structure File where
  name : String
  content : String
  closed : Bool
  calls : List FileOp
  deriving DecidableEq, Repr

/-- The file `os.Create` returns: truncated and open. -/
def File.created (name : String) : File :=
  { name := name, content := "", closed := false, calls := [] }

/-- The method `(*os.File).WriteString` on a handle that may be nil.  A nil handle answers
`os.ErrInvalid`; a closed handle answers `os.ErrClosed` and stores nothing; an open handle
appends the text.  The method call is recorded in every case on a handle that is not nil. -/
def WriteString (file : Option File) (s : String) : Option File × Option String :=
  match file with
  | none => (none, some "invalid argument")
  | some f =>
      if f.closed then
        (some { f with calls := f.calls ++ [FileOp.write s] }, some "file already closed")
      else
        (some { f with content := f.content ++ s, calls := f.calls ++ [FileOp.write s] }, none)

/-- The method `(*os.File).Write`, for the dump, a `[]byte`. -/
def Write (file : Option File) (b : String) : Option File × Option String :=
  WriteString file b

/-- The method `(*os.File).Sync`. -/
def Sync (file : Option File) : Option File × Option String :=
  match file with
  | none => (none, some "invalid argument")
  | some f =>
      if f.closed then
        (some { f with calls := f.calls ++ [FileOp.sync] }, some "file already closed")
      else (some { f with calls := f.calls ++ [FileOp.sync] }, none)

/-- The method `(*os.File).Close`. -/
def FileClose (file : Option File) : Option File × Option String :=
  match file with
  | none => (none, some "invalid argument")
  | some f =>
      if f.closed then
        (some { f with calls := f.calls ++ [FileOp.close] }, some "file already closed")
      else (some { f with closed := true, calls := f.calls ++ [FileOp.close] }, none)

/-! ## Requests, responses and the environment -/

/-- The fields of an `http.Request` the source and the dump read. -/
structure Request where
  Method : String
  RequestURI : String
  Header : List (String × String)
  Body : List UInt8
  RemoteAddr : String
  deriving DecidableEq, Repr

/-- An `io.ReadCloser`: the bytes the stream still delivers, the error it ends with in place
of the end of the stream (if any), and whether it has been closed. -/
structure ReadCloser where
  pending : List UInt8
  fail : Option String
  closed : Bool
  deriving DecidableEq, Repr

/-- The function `io.ReadAll`: the stream it leaves, the bytes read and the error. -/
def ReadAll (r : ReadCloser) : ReadCloser × List UInt8 × Option String :=
  if r.closed then (r, [], some "http: read on closed response body")
  else ({ r with pending := [] }, r.pending, r.fail)

/-- The stream `io.NopCloser(bytes.NewBuffer(buf))`: a fresh stream over `buf`. -/
def NopCloser (buf : List UInt8) : ReadCloser :=
  { pending := buf, fail := none, closed := false }

/-- The fields of an `http.Response` the source and the dump read; `Body` may be nil. -/
structure Response where
  StatusCode : Nat
  Header : List (String × String)
  ContentLength : Int
  Body : Option ReadCloser
  deriving DecidableEq, Repr

/-- A parsed `url.URL`. -/
structure URL where
  Scheme : String
  Host : String
  deriving DecidableEq, Repr

/-- What the source takes from the operating system and from the Go standard library. -/
structure Env where
  /-- The constant `runtime.GOOS`. -/
  GOOS : String
  /-- Opening and scanning `/proc/net/arp`: the error of `os.Open`, or the lines. -/
  procNetArp : Except String (List String)
  /-- Running `arp -a`: the error of `cmd.Run`, or the standard output. -/
  arpCommand : Except String String
  /-- The function `net.SplitHostPort`. -/
  SplitHostPort : String → Except String (String × String)
  /-- The function `url.Parse`. -/
  Parse : String → Except String URL
  /-- The error of `os.Create` for a file name, if it fails. -/
  Create : String → Option String
  /-- The function `httputil.DumpRequest(r, true)`. -/
  DumpRequest : Request → Except String String
  /-- The function `httputil.DumpResponse(resp, true)`. -/
  DumpResponse : Response → Except String String

/-! ## internal/arp.go, continued -/

/-- The function `getMACFromIP`. -/
def getMACFromIP (env : Env) (ip : String) : Except String String :=
  if env.GOOS = "linux" then getMACFromArpFile env.procNetArp ip
  else getMACFromArpCmd env.arpCommand ip

/-! ## internal/debuglog.go -/

/-- The type `DebugLogger`.  The mutex `mu` is held from the entry of `LogRequest`,
`LogResponse` and `Close` to their return, so the calls on one session run one after the
other; here a call is one function application. -/
structure DebugLogger where
  file : Option File
  active : Bool
  deriving DecidableEq, Repr

/-- The text stored in the log file of the session (empty when there is no file). -/
def DebugLogger.content (d : DebugLogger) : String :=
  match d.file with
  | some f => f.content
  | none => ""

/-- The method calls made on the log file of the session. -/
def DebugLogger.calls (d : DebugLogger) : List FileOp :=
  match d.file with
  | some f => f.calls
  | none => []

/-- The function `NewDebugLogger`; `now` is `time.Now().Format("2006-01-02-15-04-05")`. -/
def NewDebugLogger (env : Env) (now : String) (enabled : Bool) : Except String DebugLogger :=
  if !enabled then .ok { file := none, active := false }
  else
    let filename := "airprint-debug-" ++ now ++ ".log"
    match env.Create filename with
    | some err => .error ("failed to create debug log file: " ++ err)
    | none => .ok { file := some (File.created filename), active := true }

/-- The method `LogRequest`; `now` is `time.Now().Format("2006-01-02 15:04:05.000")`.  The
results of the writes are dropped, as in the source. -/
def DebugLogger.LogRequest (d : DebugLogger) (env : Env) (now : String) (r : Request)
    (clientIP macAddr : String) : DebugLogger :=
  if !d.active then d
  else
    let separator := "\n" ++ Repeat "=" 80 ++ "\n"
    let timestamp := now
    let file := (WriteString d.file separator).1
    let file := (WriteString file ("REQUEST at " ++ timestamp ++ "\n")).1
    let file := (WriteString file ("Client IP: " ++ clientIP ++ " | MAC: " ++ macAddr ++ "\n")).1
    let file := (WriteString file (Repeat "=" 80 ++ "\n")).1
    match env.DumpRequest r with
    | .error err =>
        let file := (WriteString file ("Error dumping request: " ++ err ++ "\n")).1
        { d with file := file }
    | .ok dump =>
        let file := (Write file dump).1
        let file := (WriteString file "\n").1
        let file := (Sync file).1
        { d with file := file }

/-- The bytes `LogResponse` reads from the body: `io.ReadAll(resp.Body)` with its error
dropped, and nothing for a nil body. -/
def readBody (resp : Response) : List UInt8 :=
  match resp.Body with
  | some body => (ReadAll body).2.1
  | none => []

/-- The method `LogResponse`: the session it leaves, the response it leaves and the error it
returns.  The body is read whole, the old stream is closed and dropped, and a fresh stream
over the bytes read is stored before the dump and again after it on both paths. -/
def DebugLogger.LogResponse (d : DebugLogger) (env : Env) (now : String) (resp : Response) :
    DebugLogger × Response × Option String :=
  if !d.active then (d, resp, none)
  else
    let timestamp := now
    let file := (WriteString d.file ("\nRESPONSE at " ++ timestamp ++ "\n")).1
    let file := (WriteString file (Repeat "-" 80 ++ "\n")).1
    let bodyBytes := readBody resp
    let resp := { resp with Body := some (NopCloser bodyBytes) }
    match env.DumpResponse resp with
    | .error err =>
        let file := (WriteString file ("Error dumping response: " ++ err ++ "\n")).1
        let resp := { resp with Body := some (NopCloser bodyBytes) }
        ({ d with file := file }, resp, none)
    | .ok dump =>
        let file := (Write file dump).1
        let file := (WriteString file "\n").1
        let resp := { resp with Body := some (NopCloser bodyBytes) }
        let file := (Sync file).1
        ({ d with file := file }, resp, none)

/-- The method `Close`: the session it leaves and the error it returns.  The flag `active`
is left as it is. -/
def DebugLogger.Close (d : DebugLogger) : DebugLogger × Option String :=
  if !d.active || d.file.isNone then (d, none)
  else
    let res := FileClose d.file
    ({ d with file := res.1 }, res.2)

/-! ## internal/proxy.go -/

/-- The `http.Server` of the proxy: its listening address. -/
structure Server where
  Addr : String
  deriving DecidableEq, Repr

/-- The type `AirPrintProxy`. -/
structure AirPrintProxy where
  targetURL : String
  port : String
  httpServer : Server
  debugLogger : DebugLogger
  deriving DecidableEq, Repr

/-- The function `getClientInfo`. -/
def getClientInfo (env : Env) (r : Request) : String × String :=
  match env.SplitHostPort r.RemoteAddr with
  | .error _ => (r.RemoteAddr, "unknown")
  | .ok (host, _) =>
      let macAddr :=
        match getMACFromIP env host with
        | .error _ => "unknown"
        | .ok macAddr => macAddr
      (host, macAddr)

/-- The function `NewAirPrintProxy`: the value it returns, or its error. -/
def NewAirPrintProxy (env : Env) (now : String) (target port : String) (debug : Bool) :
    Except String AirPrintProxy :=
  match NewDebugLogger env now debug with
  | .error err => .error ("failed to create debug logger: " ++ err)
  | .ok debugLogger =>
      match env.Parse ("http://" ++ target) with
      | .error err => .error ("failed to parse target URL: " ++ err)
      | .ok _ =>
          .ok { targetURL := target
                port := port
                httpServer := { Addr := ":" ++ port }
                debugLogger := debugLogger }

/-- The hook `reverseProxy.Director` on the session: resolve the client, then log the
request. -/
def Director (env : Env) (d : DebugLogger) (now : String) (req : Request) : DebugLogger :=
  let info := getClientInfo env req
  d.LogRequest env now req info.1 info.2

/-- The hook `reverseProxy.ModifyResponse`: it returns what `LogResponse` returns. -/
def ModifyResponse (env : Env) (d : DebugLogger) (now : String) (resp : Response) :
    DebugLogger × Response × Option String :=
  d.LogResponse env now resp

/-- The method `Shutdown` on the session: it closes the debug logger first. -/
def AirPrintProxy.Shutdown (a : AirPrintProxy) : AirPrintProxy :=
  { a with debugLogger := a.debugLogger.Close.1 }

/-! ## Sequences of calls on one session -/

/-- A call on the session, with the inputs it is made with. -/
inductive Call where
  | logRequest (now : String) (r : Request) (clientIP macAddr : String)
  | logResponse (now : String) (resp : Response)
  | close

/-- The session after one call. -/
def DebugLogger.call (env : Env) (d : DebugLogger) : Call → DebugLogger
  | .logRequest now r clientIP macAddr => d.LogRequest env now r clientIP macAddr
  | .logResponse now resp => (d.LogResponse env now resp).1
  | .close => d.Close.1

/-- The session after a sequence of calls, made in order. -/
def DebugLogger.run (env : Env) (d : DebugLogger) (calls : List Call) : DebugLogger :=
  calls.foldl (DebugLogger.call env) d

/-! ## Exchanges handled by separate workers on one session

Every worker runs the `Director` hook for its request and later, when the backend has answered,
the `ModifyResponse` hook for its response.  A schedule lists whole hook calls, made one at a
time; the executions in which the single steps of the hooks interleave come further down. -/

/-- One exchange: the request, the response of the backend, and the clock readings at the
two hooks. -/
structure Exchange where
  req : Request
  reqTime : String
  resp : Response
  respTime : String

/-- The hook a worker runs. -/
inductive Phase where
  | request
  | response
  deriving DecidableEq, Repr

/-- One hook call of a schedule: the worker (the index of its exchange) and the hook. -/
structure Step where
  worker : Nat
  phase : Phase
  deriving DecidableEq, Repr

/-- The session after one hook call. -/
def step (env : Env) (xs : List Exchange) (d : DebugLogger) (s : Step) : DebugLogger :=
  match xs[s.worker]? with
  | none => d
  | some x =>
      match s.phase with
      | .request => Director env d x.reqTime x.req
      | .response => (ModifyResponse env d x.respTime x.resp).1

/-- The session after the hook calls of a schedule. -/
def runSchedule (env : Env) (xs : List Exchange) (d : DebugLogger) (sched : List Step) :
    DebugLogger :=
  sched.foldl (step env xs) d

/-- The hooks worker `i` runs in a schedule, in order. -/
def phasesOf (sched : List Step) (i : Nat) : List Phase :=
  (sched.filter fun s => s.worker == i).map Step.phase

/-- A schedule of `n` exchanges: only workers below `n` appear, and every worker runs its
request hook once and after it its response hook at most once (never, when the backend does
not answer). -/
def isSchedule (n : Nat) (sched : List Step) : Bool :=
  sched.all (fun s => decide (s.worker < n)) &&
    (List.range n).all fun i =>
      decide (phasesOf sched i = [Phase.request, Phase.response]
        ∨ phasesOf sched i = [Phase.request])

/-- A session as `NewDebugLogger` makes it: active, over an empty open file. -/
def freshSession : DebugLogger :=
  { file := some (File.created "airprint-debug.log"), active := true }

/-- The text one hook call writes: what it stores in the file of a fresh session. -/
def blockOf (env : Env) (xs : List Exchange) (s : Step) : String :=
  (step env xs freshSession s).content

/-! ## The layouts and predicates of the specification -/

/-- The request block as the specification words it: a line of 80 separator characters, the
line `REQUEST at <timestamp>`, the line `Client IP: <ip> | MAC: <mac>`, a second line of 80
separator characters, the dump, and a newline. -/
def requestBlockLayout (timestamp ip mac dump : String) : String :=
  Repeat "=" 80 ++ "\n" ++ "REQUEST at " ++ timestamp ++ "\n"
    ++ "Client IP: " ++ ip ++ " | MAC: " ++ mac ++ "\n"
    ++ Repeat "=" 80 ++ "\n" ++ dump ++ "\n"

/-- A line of the table matches the address in the sense of the source: it has at least four
fields and the first is the address. -/
def tableLineMatches (ip line : String) : Prop :=
  4 ≤ (Fields line).length ∧ (Fields line)[0]? = some ip

/-- A line of the output of `arp -a` qualifies for the address: the address occurs in it, and
one of its space-delimited tokens is `at` and has a token after it. -/
def outputLineQualifies (ip line : String) : Prop :=
  Contains line ip = true ∧
    ∃ k, (Split line " ")[k]? = some "at" ∧ k + 1 < (Split line " ").length

/-! ## Inputs of the examples -/

/-- A neighbour table in which the first line for `10.0.0.1` has three fields only. -/
def shortLineTable : List String :=
  [ "IP address       HW type     Flags       HW address            Mask     Device",
    "10.0.0.1 0x1 0x0",
    "10.0.0.1         0x1         0x2         aa:bb:cc:dd:ee:ff     *        eth0" ]

/-- A neighbour table of two entries. -/
def sampleTable : List String :=
  [ "IP address       HW type     Flags       HW address            Mask     Device",
    "192.168.1.1      0x1         0x2         00:11:22:33:44:55     *        eth0",
    "192.168.1.23     0x1         0x2         aa:bb:cc:dd:ee:ff     *        eth0" ]

/-- An output of `arp -a` of two entries. -/
def sampleArpOutput : String :=
  "? (192.168.1.1) at 00:11:22:33:44:55 on en0 ifscope [ethernet]\n? (192.168.1.23) at aa:bb:cc:dd:ee:ff on en0 ifscope [ethernet]\n"

/-- An environment on Linux: the table above, every log file can be created, and every dump
succeeds. -/
def sampleEnv : Env :=
  { GOOS := "linux"
    procNetArp := .ok sampleTable
    arpCommand := .ok sampleArpOutput
    SplitHostPort := fun a =>
      if a = "192.168.1.23:51234" then .ok ("192.168.1.23", "51234")
      else if a = "192.168.1.1:40000" then .ok ("192.168.1.1", "40000")
      else .error ("address " ++ a ++ ": missing port in address")
    Parse := fun _ => .ok { Scheme := "http", Host := "printer.local" }
    Create := fun _ => none
    DumpRequest := fun r => .ok (r.Method ++ " " ++ r.RequestURI ++ " HTTP/1.1\r\n\r\n")
    DumpResponse := fun _ => .ok "HTTP/1.1 200 OK\r\n\r\nOK" }

/-- The environment above, except that no dump can be serialised. -/
def failingDumpEnv : Env :=
  { sampleEnv with
    DumpRequest := fun _ => .error "unexpected EOF"
    DumpResponse := fun _ => .error "http: ContentLength=5 with Body length 2" }

/-- The environment above, except that the log file cannot be created. -/
def readOnlyDirEnv : Env :=
  { sampleEnv with Create := fun _ => some "permission denied" }

/-- The environment above, except that the neighbour table cannot be opened. -/
def noTableEnv : Env :=
  { sampleEnv with procNetArp := .error "open /proc/net/arp: permission denied" }

/-- A request of a client on the local network. -/
def sampleRequest : Request :=
  { Method := "GET", RequestURI := "/ipp/print", Header := [], Body := []
    RemoteAddr := "192.168.1.23:51234" }

/-- A request whose peer address carries no port. -/
def malformedPeerRequest : Request :=
  { sampleRequest with RemoteAddr := "192.168.1.23" }

/-- A request of a second client. -/
def otherRequest : Request :=
  { Method := "POST", RequestURI := "/ipp/print", Header := [], Body := []
    RemoteAddr := "192.168.1.1:40000" }

/-- The response of the backend in the test of the repository: status 200, body `OK`. -/
def sampleResponse : Response :=
  { StatusCode := 200, Header := [], ContentLength := 2
    Body := some { pending := [79, 75], fail := none, closed := false } }

/-- Two exchanges in flight at the same time. -/
def twoExchanges : List Exchange :=
  [ { req := sampleRequest, reqTime := "2024-05-01 10:00:00.000"
      resp := sampleResponse, respTime := "2024-05-01 10:00:00.300" },
    { req := otherRequest, reqTime := "2024-05-01 10:00:00.100"
      resp := sampleResponse, respTime := "2024-05-01 10:00:00.200" } ]

/-- The second request arrives while the first waits for the backend. -/
def overlappingSchedule : List Step :=
  [ ⟨0, Phase.request⟩, ⟨1, Phase.request⟩, ⟨1, Phase.response⟩, ⟨0, Phase.response⟩ ]

/-! ## States of a session -/

/-- The session can store no text: if it is active and has a file, the file is closed. -/
def DebugLogger.isShut (d : DebugLogger) : Prop :=
  d.active = true → ∀ f, d.file = some f → f.closed = true

/-- The blocks of a transcript, one after the other. -/
def concatBlocks : List String → String
  | [] => ""
  | b :: bs => b ++ concatBlocks bs

/-! ## Workers at the grain of single method calls

`LogRequest` and `LogResponse` run `d.mu.Lock()`, then their calls on `d.file`, then the deferred
`d.mu.Unlock()`.  Here every one of these is a step of its own, and the steps of the workers
interleave in any order the mutex admits. -/

/-- One step of a hook on the shared session: taking the mutex, releasing it, or one method
call on the log file. -/
inductive Action where
  | lock
  | unlock
  | file (op : FileOp)
  deriving DecidableEq, Repr

/-- The effect of one method call on the file. -/
def applyOp (file : Option File) : FileOp → Option File
  | .write text => (WriteString file text).1
  | .sync => (Sync file).1
  | .close => (FileClose file).1

/-- The effect of method calls made in order. -/
def runOps (file : Option File) (ops : List FileOp) : Option File :=
  ops.foldl applyOp file

/-- The calls `LogRequest` makes on `d.file` between `Lock` and `Unlock`, in order. -/
def LogRequestOps (env : Env) (now : String) (r : Request) (clientIP macAddr : String) :
    List FileOp :=
  [ FileOp.write ("\n" ++ Repeat "=" 80 ++ "\n"),
    FileOp.write ("REQUEST at " ++ now ++ "\n"),
    FileOp.write ("Client IP: " ++ clientIP ++ " | MAC: " ++ macAddr ++ "\n"),
    FileOp.write (Repeat "=" 80 ++ "\n") ] ++
  match env.DumpRequest r with
  | .error err => [FileOp.write ("Error dumping request: " ++ err ++ "\n")]
  | .ok dump => [FileOp.write dump, FileOp.write "\n", FileOp.sync]

/-- The calls `LogResponse` makes on `d.file` between `Lock` and `Unlock`, in order. -/
def LogResponseOps (env : Env) (now : String) (resp : Response) : List FileOp :=
  [ FileOp.write ("\nRESPONSE at " ++ now ++ "\n"),
    FileOp.write (Repeat "-" 80 ++ "\n") ] ++
  match env.DumpResponse { resp with Body := some (NopCloser (readBody resp)) } with
  | .error err => [FileOp.write ("Error dumping response: " ++ err ++ "\n")]
  | .ok dump => [FileOp.write dump, FileOp.write "\n", FileOp.sync]

/-- The steps of a hook with the given file calls: none on an inactive session, which returns
before `Lock`; otherwise `Lock`, the calls, and the deferred `Unlock`. -/
def hookSteps (active : Bool) (ops : List FileOp) : List Action :=
  if !active then [] else Action.lock :: (ops.map Action.file ++ [Action.unlock])

/-- The steps of the worker of one exchange: the `Director` hook, then the `ModifyResponse`
hook. -/
def workerSteps (env : Env) (active : Bool) (x : Exchange) : List Action :=
  hookSteps active
      (LogRequestOps env x.reqTime x.req (getClientInfo env x.req).1 (getClientInfo env x.req).2)
    ++ hookSteps active (LogResponseOps env x.respTime x.resp)

/-- The shared state and the workers: the log file, the worker that holds `d.mu` (if any), and
the steps every worker still has to run. -/
structure Machine where
  file : Option File
  holder : Option Nat
  pending : Nat → List Action

/-- The start: the file of the session, the mutex free, every worker before its first step. -/
def Machine.start (env : Env) (xs : List Exchange) (d : DebugLogger) : Machine :=
  { file := d.file
    holder := none
    pending := fun i =>
      match xs[i]? with
      | some x => workerSteps env d.active x
      | none => [] }

/-- Worker `i` runs its next step.  `Lock` can be run only while the mutex is free; a worker
without steps left, or waiting for the mutex, cannot move. -/
def Machine.step (m : Machine) (i : Nat) : Option Machine :=
  match m.pending i with
  | [] => none
  | Action.lock :: rest =>
      if m.holder = none then
        some { m with holder := some i, pending := Function.update m.pending i rest }
      else none
  | Action.unlock :: rest =>
      some { m with holder := none, pending := Function.update m.pending i rest }
  | Action.file op :: rest =>
      some { m with file := applyOp m.file op, pending := Function.update m.pending i rest }

/-- An execution: the workers move in the order given, one step each time; `none` when some
worker in the list cannot move at its turn. -/
def Machine.exec (m : Machine) : List Nat → Option Machine
  | [] => some m
  | i :: rest =>
      match m.step i with
      | some m' => m'.exec rest
      | none => none

/-- The hooks of worker `i`, in order, when there are `n` exchanges. -/
def hooksOfWorker (n i : Nat) : List Step :=
  if i < n then [⟨i, Phase.request⟩, ⟨i, Phase.response⟩] else []

/-- The file calls of a hook call. -/
def opsOfStep (env : Env) (xs : List Exchange) (s : Step) : List FileOp :=
  match xs[s.worker]? with
  | none => []
  | some x =>
      match s.phase with
      | .request =>
          LogRequestOps env x.reqTime x.req (getClientInfo env x.req).1 (getClientInfo env x.req).2
      | .response => LogResponseOps env x.respTime x.resp

/-- The steps of a worker that still has the given hooks to run, each with its file calls. -/
def stepsOfHooks (ops : Step → List FileOp) : List Step → List Action
  | [] => []
  | s :: rest => Action.lock :: ((ops s).map Action.file ++ Action.unlock :: stepsOfHooks ops rest)

/-- The file calls of hook calls that ran one after the other. -/
def opsOfHooks (ops : Step → List FileOp) : List Step → List FileOp
  | [] => []
  | s :: rest => ops s ++ opsOfHooks ops rest

/-- The invariant of the executions.  `done` lists the hook calls that have released the mutex,
in the order in which they took it, and `rem i` the hook calls worker `i` has not begun.
While the mutex is free every worker stands before a hook call, and the file holds the calls
of `done`.  While worker `h` holds it, `h` is inside the hook call `s`, having made the calls
`pre` of it, every other worker stands before a hook call, and the file holds the calls of
`done` and `pre`. -/
def Machine.Inv (ops : Step → List FileOp) (hooks : Nat → List Step) (file0 : Option File)
    (m : Machine) : Prop :=
  ∃ (done : List Step) (rem : Nat → List Step),
    (m.holder = none
      ∧ (∀ i, m.pending i = stepsOfHooks ops (rem i))
      ∧ m.file = runOps file0 (opsOfHooks ops done)
      ∧ ∀ i, (done.filter fun s => s.worker == i) ++ rem i = hooks i)
    ∨ ∃ (h : Nat) (s : Step) (pre post : List FileOp),
        m.holder = some h
        ∧ ops s = pre ++ post
        ∧ (∀ i, i ≠ h → m.pending i = stepsOfHooks ops (rem i))
        ∧ m.pending h = post.map Action.file ++ Action.unlock :: stepsOfHooks ops (rem h)
        ∧ m.file = runOps file0 (opsOfHooks ops done ++ pre)
        ∧ (∀ i, i ≠ h → (done.filter fun s => s.worker == i) ++ rem i = hooks i)
        ∧ (done.filter fun s => s.worker == h) ++ s :: rem h = hooks h

/-- The text method calls store in an open file: the texts of the writes, in order. -/
def textOfOps : List FileOp → String
  | [] => ""
  | FileOp.write text :: rest => text ++ textOfOps rest
  | _ :: rest => textOfOps rest

/-- The request block as the source lays it out: a newline, the layout of the specification up
to the dump, and then the dump and a newline, or the line of the dump error. -/
def requestBlockText (env : Env) (now : String) (r : Request) (clientIP macAddr : String) :
    String :=
  "\n" ++ Repeat "=" 80 ++ "\n" ++ "REQUEST at " ++ now ++ "\n"
    ++ "Client IP: " ++ clientIP ++ " | MAC: " ++ macAddr ++ "\n"
    ++ Repeat "=" 80 ++ "\n"
    ++ match env.DumpRequest r with
       | .ok dump => dump ++ "\n"
       | .error err => "Error dumping request: " ++ err ++ "\n"

/-- The response block as the source lays it out. -/
def responseBlockText (env : Env) (now : String) (resp : Response) : String :=
  "\nRESPONSE at " ++ now ++ "\n" ++ Repeat "-" 80 ++ "\n"
    ++ match env.DumpResponse { resp with Body := some (NopCloser (readBody resp)) } with
       | .ok dump => dump ++ "\n"
       | .error err => "Error dumping response: " ++ err ++ "\n"

/-- The block of a hook call, as text. -/
def blockText (env : Env) (xs : List Exchange) (s : Step) : String :=
  match xs[s.worker]? with
  | none => ""
  | some x =>
      match s.phase with
      | .request =>
          requestBlockText env x.reqTime x.req (getClientInfo env x.req).1
            (getClientInfo env x.req).2
      | .response => responseBlockText env x.respTime x.resp

/-- The first write of a request block: the separator line after a newline.  No other write of
`LogRequest` or `LogResponse` has this text, unless a dump is this very text. -/
def openingSeparator : String :=
  "\n" ++ Repeat "=" 80 ++ "\n"

/-- The request blocks in the record of a file: the writes of the opening separator. -/
def requestBlocksBegun (calls : List FileOp) : Nat :=
  calls.count (FileOp.write openingSeparator)

/-- Every worker below `n` has run all its steps. -/
def Machine.finished (m : Machine) (n : Nat) : Bool :=
  (List.range n).all fun i => (m.pending i).isEmpty

/-- An execution of `twoExchanges` step by step: worker 0 runs its request hook (nine steps),
worker 1 its request hook and then its response hook (seven steps), worker 0 its response
hook. -/
def overlappingTrace : List Nat :=
  List.replicate 9 0 ++ List.replicate 9 1 ++ List.replicate 7 1 ++ List.replicate 7 0

/-- Worker 0 takes the mutex and makes its first write; then worker 1 tries to take the
mutex. -/
def contendedTrace : List Nat :=
  [0, 0, 1]

/-! # Theorems -/

/-! ## The table-file strategy -/

/-- Lines that do not match are passed over by the scan. -/
theorem scanArpLines_skip (ip : String) (pre tl : List String)
    (hpre : ∀ l ∈ pre, ¬ tableLineMatches ip l) :
    scanArpLines ip (pre ++ tl) = scanArpLines ip tl := by
  induction pre with
  | nil => rfl
  | cons l pre ih =>
      have hl := hpre l (List.mem_cons_self l pre)
      have ih' := ih (fun x hx => hpre x (List.mem_cons_of_mem l hx))
      simp only [List.cons_append, scanArpLines]
      by_cases h4 : 4 ≤ (Fields l).length
      · have h0 : ¬ (Fields l)[0] = ip := by
          intro h
          apply hl
          refine ⟨h4, ?_⟩
          rw [List.getElem?_eq_getElem (by omega), h]
        simp only [h4, h0, dite_true, if_false]
        exact ih'
      · simp only [h4, dite_false]
        exact ih'

/-- A matching line at the head of the scan yields its fourth field. -/
theorem scanArpLines_hit (ip line mac : String) (post : List String)
    (hm : tableLineMatches ip line) (h3 : (Fields line)[3]? = some mac) :
    scanArpLines ip (line :: post) = .ok mac := by
  obtain ⟨h4, h0⟩ := hm
  have e0 : (Fields line)[0] = ip := by
    rw [List.getElem?_eq_getElem (by omega)] at h0
    exact Option.some.inj h0
  have e3 : (Fields line)[3] = mac := by
    rw [List.getElem?_eq_getElem (by omega)] at h3
    exact Option.some.inj h3
  simp only [scanArpLines, h4, dite_true, e0, if_true, e3]

/-- A scan over lines none of which matches ends in the lookup failure. -/
theorem scanArpLines_miss (ip : String) (ls : List String)
    (hno : ∀ l ∈ ls, ¬ tableLineMatches ip l) :
    scanArpLines ip ls = .error "not found in /proc/net/arp" := by
  have h := scanArpLines_skip ip ls [] hno
  rw [List.append_nil] at h
  rw [h]
  rfl

/-- C3, as stated, fails.  In `shortLineTable` the first line after the header whose first field
is `10.0.0.1` is `10.0.0.1 0x1 0x0`; it has three fields, so it has no fourth field, and the
lookup does not stop there: it answers with the fourth field of the next line for that
address.  So the result is not the fourth field of the first line whose first field is the
address. -/
theorem getMACFromArpFile_first_line_counterexample :
    (shortLineTable.drop 1).find? (fun l => decide ((Fields l)[0]? = some "10.0.0.1"))
        = some "10.0.0.1 0x1 0x0"
      ∧ (Fields "10.0.0.1 0x1 0x0")[3]? = none
      ∧ getMACFromArpFile (.ok shortLineTable) "10.0.0.1" = .ok "aa:bb:cc:dd:ee:ff"
      ∧ ¬ ∃ mac, (Fields "10.0.0.1 0x1 0x0")[3]? = some mac
          ∧ getMACFromArpFile (.ok shortLineTable) "10.0.0.1" = .ok mac := by
  refine ⟨by decide, by decide, by decide, ?_⟩
  rintro ⟨mac, h3, _⟩
  have hnone : (Fields "10.0.0.1 0x1 0x0")[3]? = none := by decide
  rw [hnone] at h3
  exact Option.noConfusion h3

/-- C3, amended.  The header line is never matched: the result depends on the lines after the
first only.  If some line after the header has at least four fields and its first field is
the address, the result is the fourth field of the first such line.  If no line after the
header is such a line, the result is the lookup failure. -/
theorem getMACFromArpFile_table (lines : List String) (ip : String) :
    (∀ lines' : List String, lines'.drop 1 = lines.drop 1 →
        getMACFromArpFile (.ok lines') ip = getMACFromArpFile (.ok lines) ip)
      ∧ (∀ (pre post : List String) (line mac : String),
          lines.drop 1 = pre ++ line :: post →
          (∀ l ∈ pre, ¬ tableLineMatches ip l) →
          tableLineMatches ip line →
          (Fields line)[3]? = some mac →
          getMACFromArpFile (.ok lines) ip = .ok mac)
      ∧ ((∀ l ∈ lines.drop 1, ¬ tableLineMatches ip l) →
          getMACFromArpFile (.ok lines) ip = .error "not found in /proc/net/arp") := by
  refine ⟨?_, ?_, ?_⟩
  · intro lines' h
    simp only [getMACFromArpFile, h]
  · intro pre post line mac hsplit hpre hm h3
    simp only [getMACFromArpFile, hsplit]
    rw [scanArpLines_skip ip pre (line :: post) hpre]
    exact scanArpLines_hit ip line mac post hm h3
  · intro hno
    simp only [getMACFromArpFile]
    exact scanArpLines_miss ip (lines.drop 1) hno

/-- Witness of `getMACFromArpFile_table`: in `shortLineTable` the short line is passed over and
the line after it decides the lookup of `10.0.0.1`. -/
theorem getMACFromArpFile_table_witness :
    getMACFromArpFile (.ok shortLineTable) "10.0.0.1" = .ok "aa:bb:cc:dd:ee:ff" :=
  (getMACFromArpFile_table shortLineTable "10.0.0.1").2.1
    ["10.0.0.1 0x1 0x0"] []
    "10.0.0.1         0x1         0x2         aa:bb:cc:dd:ee:ff     *        eth0"
    "aa:bb:cc:dd:ee:ff"
    (by decide)
    (by
      intro l hl
      rw [List.mem_singleton] at hl
      subst hl
      rintro ⟨h4, _⟩
      revert h4
      decide)
    ⟨by decide, by decide⟩
    (by decide)

/-! ## The command-fallback strategy -/

/-- The first `at` that has a token after it yields that token. -/
theorem atLoop_hit (parts : List String) (i : Nat) (mac : String)
    (hat : parts[i]? = some "at") (hfirst : ∀ j, j < i → parts[j]? ≠ some "at")
    (hnext : parts[i + 1]? = some mac) : atLoop parts = some mac := by
  induction parts generalizing i with
  | nil => simp at hat
  | cons p rest ih =>
      cases i with
      | zero =>
          cases rest with
          | nil => simp at hnext
          | cons n tl =>
              simp at hat hnext
              simp [atLoop, hat, hnext]
      | succ k =>
          have hp : p ≠ "at" := by
            intro h
            exact hfirst 0 (Nat.succ_pos k) (by simp [h])
          have hrec : atLoop rest = some mac := by
            apply ih k
            · simpa using hat
            · intro j hj
              have := hfirst (j + 1) (Nat.succ_lt_succ hj)
              simpa using this
            · simpa using hnext
          cases rest with
          | nil => simp [atLoop] at hrec
          | cons n tl => simp only [atLoop, hp, if_false]; exact hrec

/-- Without an `at` that has a token after it the inner loop finds nothing. -/
theorem atLoop_miss (parts : List String)
    (hno : ¬ ∃ k, parts[k]? = some "at" ∧ k + 1 < parts.length) : atLoop parts = none := by
  induction parts with
  | nil => rfl
  | cons p rest ih =>
      have hrec : atLoop rest = none := by
        apply ih
        rintro ⟨i, hi, hlt⟩
        exact hno ⟨i + 1, by simpa using hi, by simpa using hlt⟩
      cases rest with
      | nil => simp [atLoop]
      | cons n tl =>
          have hp : p ≠ "at" := by
            intro h
            exact hno ⟨0, by simp [h], by simp⟩
          simp only [atLoop, hp, if_false]; exact hrec

/-- Lines that do not qualify are passed over by the outer loop. -/
theorem scanArpOutput_skip (ip : String) (pre tl : List String)
    (hpre : ∀ l ∈ pre, ¬ outputLineQualifies ip l) :
    scanArpOutput ip (pre ++ tl) = scanArpOutput ip tl := by
  induction pre with
  | nil => rfl
  | cons l pre ih =>
      have hl := hpre l (List.mem_cons_self l pre)
      have ih' := ih (fun x hx => hpre x (List.mem_cons_of_mem l hx))
      simp only [List.cons_append, scanArpOutput]
      by_cases hc : Contains l ip = true
      · have hno : atLoop (Split l " ") = none :=
          atLoop_miss _ (fun h => hl ⟨hc, h⟩)
        simp only [hc, if_true, hno]
        exact ih'
      · simp only [hc]
        exact ih'

/-- C4.  With `getMACFromArpCmd` read as a function of the result of running the utility and of
the address: a failure of the command is the failure of the lookup; otherwise the output is
split on newlines, and the first line that contains the address as a substring and has a
space-delimited token `at` with a token after it decides the result, which is the token right
after the first `at` of that line; if no line qualifies the result is the lookup failure. -/
theorem getMACFromArpCmd_first_at (ip : String) :
    (∀ err : String, getMACFromArpCmd (.error err) ip = .error err)
      ∧ (∀ (out : String) (pre post : List String) (line : String) (i : Nat) (mac : String),
          Split out "\n" = pre ++ line :: post →
          (∀ l ∈ pre, ¬ outputLineQualifies ip l) →
          Contains line ip = true →
          (Split line " ")[i]? = some "at" →
          (∀ j, j < i → (Split line " ")[j]? ≠ some "at") →
          (Split line " ")[i + 1]? = some mac →
          getMACFromArpCmd (.ok out) ip = .ok mac)
      ∧ (∀ out : String, (∀ l ∈ Split out "\n", ¬ outputLineQualifies ip l) →
          getMACFromArpCmd (.ok out) ip = .error ("MAC not found for IP " ++ ip)) := by
  refine ⟨fun _ => rfl, ?_, ?_⟩
  · intro out pre post line i mac hsplit hpre hc hat hfirst hnext
    simp only [getMACFromArpCmd, hsplit]
    rw [scanArpOutput_skip ip pre (line :: post) hpre]
    simp only [scanArpOutput, hc, if_true, atLoop_hit _ i mac hat hfirst hnext]
  · intro out hno
    have h := scanArpOutput_skip ip (Split out "\n") [] hno
    rw [List.append_nil] at h
    simp only [getMACFromArpCmd, h]
    rfl

/-- Witness of `getMACFromArpCmd_first_at`: in `sampleArpOutput` the line of `192.168.1.1` does
not contain `192.168.1.23`, and the second line decides the lookup with the token after its
`at`, the third token of the line. -/
theorem getMACFromArpCmd_first_at_witness :
    getMACFromArpCmd (.ok sampleArpOutput) "192.168.1.23" = .ok "aa:bb:cc:dd:ee:ff" :=
  (getMACFromArpCmd_first_at "192.168.1.23").2.1 sampleArpOutput
    ["? (192.168.1.1) at 00:11:22:33:44:55 on en0 ifscope [ethernet]"] [""]
    "? (192.168.1.23) at aa:bb:cc:dd:ee:ff on en0 ifscope [ethernet]" 2 "aa:bb:cc:dd:ee:ff"
    (by decide)
    (by
      intro l hl
      rw [List.mem_singleton] at hl
      subst hl
      rintro ⟨hc, _⟩
      revert hc
      decide)
    (by decide)
    (by decide)
    (by
      intro j hj
      have hj' : j = 0 ∨ j = 1 := by omega
      rcases hj' with h | h <;> subst h <;> decide)
    (by decide)

/-! ## The client identity -/

/-- C2.  `getClientInfo` returns a pair on every request and never an error.  If `RemoteAddr`
cannot be split into address and port, the pair is `RemoteAddr` as it is and `unknown`.
Otherwise it is the address without the port, with the hardware address `getMACFromIP` found,
or with `unknown` when `getMACFromIP` returns an error: then the second component is not the
empty string that comes with the error. -/
theorem getClientInfo_never_fails (env : Env) (r : Request) :
    (∀ err : String, env.SplitHostPort r.RemoteAddr = .error err →
        getClientInfo env r = (r.RemoteAddr, "unknown"))
      ∧ (∀ host port mac : String, env.SplitHostPort r.RemoteAddr = .ok (host, port) →
          getMACFromIP env host = .ok mac → getClientInfo env r = (host, mac))
      ∧ (∀ host port err : String, env.SplitHostPort r.RemoteAddr = .ok (host, port) →
          getMACFromIP env host = .error err →
          getClientInfo env r = (host, "unknown") ∧ (getClientInfo env r).2 ≠ "") := by
  refine ⟨?_, ?_, ?_⟩
  · intro err h
    simp only [getClientInfo, h]
  · intro host port mac h hm
    simp only [getClientInfo, h, hm]
  · intro host port err h hm
    have e : getClientInfo env r = (host, "unknown") := by
      simp only [getClientInfo, h, hm]
    refine ⟨e, ?_⟩
    rw [e]
    show "unknown" ≠ ""
    decide

/-- Witness of `getClientInfo_never_fails`: a client with an entry in the neighbour table is
reported with its hardware address, and when the table cannot be opened the same client is
reported with `unknown`. -/
theorem getClientInfo_never_fails_witness :
    getClientInfo sampleEnv sampleRequest = ("192.168.1.23", "aa:bb:cc:dd:ee:ff")
      ∧ getClientInfo noTableEnv sampleRequest = ("192.168.1.23", "unknown")
      ∧ getClientInfo sampleEnv malformedPeerRequest = ("192.168.1.23", "unknown") :=
  ⟨(getClientInfo_never_fails sampleEnv sampleRequest).2.1
      "192.168.1.23" "51234" "aa:bb:cc:dd:ee:ff" (by decide) (by decide),
   ((getClientInfo_never_fails noTableEnv sampleRequest).2.2
      "192.168.1.23" "51234" "open /proc/net/arp: permission denied"
      (by decide) (by decide)).1,
   (getClientInfo_never_fails sampleEnv malformedPeerRequest).1
      "address 192.168.1.23: missing port in address" (by decide)⟩

/-! ## The response body -/

/-- C1.  `LogResponse` does not consume the response body.  For every response whose body stream
yields the bytes `b`, for a session with diagnostics on or off and whatever the dump does
(the environment, and with it the outcome of the dump, is arbitrary), the response
`LogResponse` leaves carries a body stream that yields exactly `b`; on an active session it
is a fresh stream over `b`, which ends without an error.  The status code is left as it is. -/
theorem LogResponse_body_restored (d : DebugLogger) (env : Env) (now : String)
    (resp : Response) (body : ReadCloser) (b : List UInt8)
    (hbody : resp.Body = some body) (hb : (ReadAll body).2.1 = b) :
    ∃ body', (d.LogResponse env now resp).2.1.Body = some body'
      ∧ (ReadAll body').2.1 = b
      ∧ (d.active = true → body' = NopCloser b)
      ∧ (d.LogResponse env now resp).2.1.StatusCode = resp.StatusCode := by
  have hread : readBody resp = b := by simp only [readBody, hbody, hb]
  by_cases hact : d.active = true
  · refine ⟨NopCloser b, ?_, ?_, fun _ => rfl, ?_⟩
    · simp only [DebugLogger.LogResponse, hact, hread]
      cases env.DumpResponse { resp with Body := some (NopCloser b) } <;> rfl
    · simp [ReadAll, NopCloser]
    · simp only [DebugLogger.LogResponse, hact, hread]
      cases env.DumpResponse { resp with Body := some (NopCloser b) } <;> rfl
  · refine ⟨body, ?_, hb, fun h => absurd h hact, ?_⟩
    · simp [DebugLogger.LogResponse, hact, hbody]
    · simp [DebugLogger.LogResponse, hact]

/-- Witness of `LogResponse_body_restored`: the response of the test (status 200, body `OK`,
the bytes 79 and 75) on an active session whose dump fails. -/
theorem LogResponse_body_restored_witness :
    ∃ body', (freshSession.LogResponse failingDumpEnv "2024-05-01 10:00:00.300"
          sampleResponse).2.1.Body = some body'
      ∧ (ReadAll body').2.1 = [79, 75]
      ∧ (freshSession.active = true → body' = NopCloser [79, 75])
      ∧ (freshSession.LogResponse failingDumpEnv "2024-05-01 10:00:00.300"
          sampleResponse).2.1.StatusCode = sampleResponse.StatusCode :=
  LogResponse_body_restored freshSession failingDumpEnv "2024-05-01 10:00:00.300"
    sampleResponse { pending := [79, 75], fail := none, closed := false } [79, 75]
    (by decide) (by decide)

/-! ## The result of `LogResponse` -/

/-- C10.  `LogResponse` returns nil for every response and every session, active or not, with a
file open, closed or absent, and whether the dump succeeds or fails; so does the
`ModifyResponse` hook.  When the dump fails on an active session with an open file, the text
appended to the log is the header of the response block followed by the line
`Error dumping response: <err>`, and no dump. -/
theorem LogResponse_returns_nil (d : DebugLogger) (env : Env) (now : String)
    (resp : Response) :
    (d.LogResponse env now resp).2.2 = none
      ∧ (ModifyResponse env d now resp).2.2 = none
      ∧ (∀ (f : File) (err : String), d.active = true → d.file = some f → f.closed = false →
          env.DumpResponse { resp with Body := some (NopCloser (readBody resp)) } = .error err →
          (d.LogResponse env now resp).1.content
            = f.content ++ "\nRESPONSE at " ++ now ++ "\n" ++ Repeat "-" 80 ++ "\n"
                ++ "Error dumping response: " ++ err ++ "\n") := by
  have h1 : (d.LogResponse env now resp).2.2 = none := by
    by_cases hact : d.active = true
    · simp only [DebugLogger.LogResponse, hact]
      cases env.DumpResponse { resp with Body := some (NopCloser (readBody resp)) } <;> rfl
    · simp [DebugLogger.LogResponse, hact]
  refine ⟨h1, h1, ?_⟩
  intro f err hact hfile hopen hdump
  simp only [DebugLogger.LogResponse, hact, hfile, hdump, WriteString, hopen,
    DebugLogger.content, String.append_assoc, Bool.not_true, Bool.false_eq_true, if_false]

/-- Witness of `LogResponse_returns_nil`: a dump that fails on a fresh session leaves the error
line in the log. -/
theorem LogResponse_returns_nil_witness :
    (freshSession.LogResponse failingDumpEnv "2024-05-01 10:00:00.300" sampleResponse).1.content
      = "" ++ "\nRESPONSE at " ++ "2024-05-01 10:00:00.300" ++ "\n" ++ Repeat "-" 80 ++ "\n"
          ++ "Error dumping response: " ++ "http: ContentLength=5 with Body length 2" ++ "\n" :=
  (LogResponse_returns_nil freshSession failingDumpEnv "2024-05-01 10:00:00.300"
      sampleResponse).2.2
    (File.created "airprint-debug.log") "http: ContentLength=5 with Body length 2"
    (by decide) (by decide) (by decide) (by decide)

/-! ## The request block -/

set_option maxRecDepth 20000 in
/-- C7, as stated, fails.  On a fresh session the text `LogRequest` appends is not the layout of
the specification: it is that layout after a newline, so the block opens with an empty
line and not with the line of separator characters. -/
theorem LogRequest_layout_counterexample :
    (freshSession.LogRequest sampleEnv "2024-05-01 10:00:00.000" sampleRequest
        "192.168.1.23" "aa:bb:cc:dd:ee:ff").content
        ≠ requestBlockLayout "2024-05-01 10:00:00.000" "192.168.1.23" "aa:bb:cc:dd:ee:ff"
            "GET /ipp/print HTTP/1.1\r\n\r\n"
      ∧ (freshSession.LogRequest sampleEnv "2024-05-01 10:00:00.000" sampleRequest
        "192.168.1.23" "aa:bb:cc:dd:ee:ff").content
        = "\n" ++ requestBlockLayout "2024-05-01 10:00:00.000" "192.168.1.23"
            "aa:bb:cc:dd:ee:ff" "GET /ipp/print HTTP/1.1\r\n\r\n" := by
  constructor <;> decide

/-- C7, amended.  For an active session whose file is open, every client address, hardware
address and request whose dump succeeds with the bytes `dump`, the text `LogRequest` appends
to the file is exactly a newline followed by: a line of 80 separator characters, the line
`REQUEST at <timestamp>`, the line `Client IP: <ip> | MAC: <mac>`, a second line of 80
separator characters, the dump, and a newline.  One call appends one such block: it makes
these six writes and then one sync. -/
theorem LogRequest_block (d : DebugLogger) (env : Env) (now : String) (r : Request)
    (clientIP macAddr : String) (f : File) (dump : String)
    (hact : d.active = true) (hfile : d.file = some f) (hopen : f.closed = false)
    (hdump : env.DumpRequest r = .ok dump) :
    (d.LogRequest env now r clientIP macAddr).content
        = f.content ++ "\n" ++ requestBlockLayout now clientIP macAddr dump
      ∧ (d.LogRequest env now r clientIP macAddr).calls
        = f.calls ++ [FileOp.write ("\n" ++ Repeat "=" 80 ++ "\n"),
            FileOp.write ("REQUEST at " ++ now ++ "\n"),
            FileOp.write ("Client IP: " ++ clientIP ++ " | MAC: " ++ macAddr ++ "\n"),
            FileOp.write (Repeat "=" 80 ++ "\n"), FileOp.write dump, FileOp.write "\n",
            FileOp.sync] := by
  constructor
  · simp only [DebugLogger.LogRequest, hact, hfile, hdump, WriteString, Write, Sync, hopen,
      DebugLogger.content, requestBlockLayout, String.append_assoc, Bool.not_true,
      Bool.false_eq_true, if_false]
  · simp only [DebugLogger.LogRequest, hact, hfile, hdump, WriteString, Write, Sync, hopen,
      DebugLogger.calls, Bool.not_true, Bool.false_eq_true, if_false, List.append_assoc,
      List.singleton_append, List.cons_append, List.nil_append]

/-- Witness of `LogRequest_block`: the request of the examples on a fresh session. -/
theorem LogRequest_block_witness :
    (freshSession.LogRequest sampleEnv "2024-05-01 10:00:00.000" sampleRequest
        "192.168.1.23" "aa:bb:cc:dd:ee:ff").content
      = "" ++ "\n" ++ requestBlockLayout "2024-05-01 10:00:00.000" "192.168.1.23"
          "aa:bb:cc:dd:ee:ff" "GET /ipp/print HTTP/1.1\r\n\r\n" :=
  (LogRequest_block freshSession sampleEnv "2024-05-01 10:00:00.000" sampleRequest
    "192.168.1.23" "aa:bb:cc:dd:ee:ff" (File.created "airprint-debug.log")
    "GET /ipp/print HTTP/1.1\r\n\r\n" (by decide) (by decide) (by decide) (by decide)).1

/-! ## Syncing -/

set_option maxRecDepth 20000 in
/-- C6 fails on the code at a dump that fails.  On a fresh session `LogRequest` with a request
whose dump fails makes five writes, the last one the line `Error dumping request: ...`, and
returns: no sync follows the last write.  `LogResponse` with a dump that fails does the same
after its three writes. -/
theorem LogRequest_dump_failure_not_synced :
    (freshSession.LogRequest failingDumpEnv "2024-05-01 10:00:00.000" sampleRequest
        "192.168.1.23" "aa:bb:cc:dd:ee:ff").calls
        = [FileOp.write ("\n" ++ Repeat "=" 80 ++ "\n"),
            FileOp.write "REQUEST at 2024-05-01 10:00:00.000\n",
            FileOp.write "Client IP: 192.168.1.23 | MAC: aa:bb:cc:dd:ee:ff\n",
            FileOp.write (Repeat "=" 80 ++ "\n"),
            FileOp.write "Error dumping request: unexpected EOF\n"]
      ∧ (freshSession.LogResponse failingDumpEnv "2024-05-01 10:00:00.300"
          sampleResponse).1.calls
        = [FileOp.write "\nRESPONSE at 2024-05-01 10:00:00.300\n",
            FileOp.write (Repeat "-" 80 ++ "\n"),
            FileOp.write "Error dumping response: http: ContentLength=5 with Body length 2\n"]
      ∧ (freshSession.LogRequest failingDumpEnv "2024-05-01 10:00:00.000" sampleRequest
          "192.168.1.23" "aa:bb:cc:dd:ee:ff").calls.getLast? ≠ some FileOp.sync := by
  refine ⟨by decide, by decide, by decide⟩

/-! ## The proxy constructor -/

/-- C8, as stated, fails.  With diagnostics on and a log file that cannot be created,
`NewAirPrintProxy` returns an error and no proxy. -/
theorem NewAirPrintProxy_create_failure_counterexample :
    NewAirPrintProxy readOnlyDirEnv "2024-05-01-10-00-00" "192.168.1.50" "631" true
      = .error "failed to create debug logger: failed to create debug log file: permission denied"
      ∧ ¬ ∃ proxy, NewAirPrintProxy readOnlyDirEnv "2024-05-01-10-00-00" "192.168.1.50" "631"
          true = .ok proxy := by
  have h : NewAirPrintProxy readOnlyDirEnv "2024-05-01-10-00-00" "192.168.1.50" "631" true
      = .error "failed to create debug logger: failed to create debug log file: permission denied" := by
    decide
  refine ⟨h, ?_⟩
  rintro ⟨proxy, hp⟩
  rw [h] at hp
  exact Except.noConfusion hp

/-- C8, amended.  For every target and port, when diagnostics are on and creating the log file
fails with the error `err`, `NewAirPrintProxy` returns no proxy but the error
`failed to create debug logger: failed to create debug log file: <err>`. -/
theorem NewAirPrintProxy_create_failure (env : Env) (now target port err : String)
    (hcreate : env.Create ("airprint-debug-" ++ now ++ ".log") = some err) :
    NewAirPrintProxy env now target port true
      = .error ("failed to create debug logger: "
          ++ ("failed to create debug log file: " ++ err)) := by
  simp only [NewAirPrintProxy, NewDebugLogger, hcreate, Bool.not_true, Bool.false_eq_true,
    if_false]

/-- Witness of `NewAirPrintProxy_create_failure`: a working directory that cannot be written. -/
theorem NewAirPrintProxy_create_failure_witness :
    NewAirPrintProxy readOnlyDirEnv "2024-05-01-10-00-00" "printer.local" "8631" true
      = .error ("failed to create debug logger: "
          ++ ("failed to create debug log file: " ++ "permission denied")) :=
  NewAirPrintProxy_create_failure readOnlyDirEnv "2024-05-01-10-00-00" "printer.local" "8631"
    "permission denied" (by decide)

/-! ## Calls after `Close` -/

/-- After `Close` the session can store no text, and `Close` stores none. -/
theorem Close_isShut (d : DebugLogger) : d.Close.1.isShut ∧ d.Close.1.content = d.content := by
  by_cases hact : d.active = true
  · cases hf : d.file with
    | none => simp [DebugLogger.Close, hact, hf, DebugLogger.isShut, DebugLogger.content]
    | some f =>
        by_cases hc : f.closed = true <;>
          simp [DebugLogger.Close, hact, hf, hc, FileClose, DebugLogger.isShut,
            DebugLogger.content]
  · simp [DebugLogger.Close, hact, DebugLogger.isShut]

/-- On a session that can store no text `LogRequest` stores none. -/
theorem LogRequest_isShut (d : DebugLogger) (env : Env) (now : String) (r : Request)
    (clientIP macAddr : String) (h : d.isShut) :
    (d.LogRequest env now r clientIP macAddr).isShut
      ∧ (d.LogRequest env now r clientIP macAddr).content = d.content := by
  by_cases hact : d.active = true
  · cases hf : d.file with
    | none =>
        cases hdump : env.DumpRequest r <;>
          simp [DebugLogger.LogRequest, hact, hf, hdump, WriteString, Write, Sync,
            DebugLogger.isShut, DebugLogger.content]
    | some f =>
        have hc := h hact f hf
        cases hdump : env.DumpRequest r <;>
          simp [DebugLogger.LogRequest, hact, hf, hdump, WriteString, Write, Sync, hc,
            DebugLogger.isShut, DebugLogger.content]
  · simp only [DebugLogger.LogRequest, hact, Bool.not_false, if_true]
    exact ⟨h, trivial⟩

/-- On a session that can store no text `LogResponse` stores none. -/
theorem LogResponse_isShut (d : DebugLogger) (env : Env) (now : String) (resp : Response)
    (h : d.isShut) :
    (d.LogResponse env now resp).1.isShut
      ∧ (d.LogResponse env now resp).1.content = d.content := by
  by_cases hact : d.active = true
  · cases hf : d.file with
    | none =>
        cases hdump : env.DumpResponse { resp with Body := some (NopCloser (readBody resp)) } <;>
          simp [DebugLogger.LogResponse, hact, hf, hdump, WriteString, Write, Sync,
            DebugLogger.isShut, DebugLogger.content]
    | some f =>
        have hc := h hact f hf
        cases hdump : env.DumpResponse { resp with Body := some (NopCloser (readBody resp)) } <;>
          simp [DebugLogger.LogResponse, hact, hf, hdump, WriteString, Write, Sync, hc,
            DebugLogger.isShut, DebugLogger.content]
  · simp only [DebugLogger.LogResponse, hact, Bool.not_false, if_true]
    exact ⟨h, trivial⟩

/-- No call stores text on a session that can store none. -/
theorem call_isShut (env : Env) (d : DebugLogger) (c : Call) (h : d.isShut) :
    (d.call env c).isShut ∧ (d.call env c).content = d.content := by
  cases c with
  | logRequest now r clientIP macAddr => exact LogRequest_isShut d env now r clientIP macAddr h
  | logResponse now resp => exact LogResponse_isShut d env now resp h
  | close => exact Close_isShut d

/-- No sequence of calls stores text on a session that can store none. -/
theorem run_isShut (env : Env) (calls : List Call) (d : DebugLogger) (h : d.isShut) :
    (d.run env calls).isShut ∧ (d.run env calls).content = d.content := by
  induction calls generalizing d with
  | nil => exact ⟨h, rfl⟩
  | cons c cs ih =>
      have hc := call_isShut env d c h
      have := ih (d.call env c) hc.1
      simp only [DebugLogger.run, List.foldl_cons] at this ⊢
      exact ⟨this.1, this.2.trans hc.2⟩

set_option maxRecDepth 20000 in
/-- C5, as stated, fails.  On a fresh session, a `LogRequest` made after `Close` calls the write
methods of the file six times and `Sync` once: the session is still active, the call is not
turned into a no-op and reports nothing.  The closed handle refuses each call, and the file
stays empty. -/
theorem LogRequest_after_Close_counterexample :
    (freshSession.Close.1.LogRequest sampleEnv "2024-05-01 10:00:05.000" sampleRequest
        "192.168.1.23" "aa:bb:cc:dd:ee:ff").calls
        = [FileOp.close,
            FileOp.write ("\n" ++ Repeat "=" 80 ++ "\n"),
            FileOp.write "REQUEST at 2024-05-01 10:00:05.000\n",
            FileOp.write "Client IP: 192.168.1.23 | MAC: aa:bb:cc:dd:ee:ff\n",
            FileOp.write (Repeat "=" 80 ++ "\n"),
            FileOp.write "GET /ipp/print HTTP/1.1\r\n\r\n",
            FileOp.write "\n",
            FileOp.sync]
      ∧ freshSession.Close.1.active = true
      ∧ (WriteString freshSession.Close.1.file "\n").2 = some "file already closed"
      ∧ (freshSession.Close.1.LogRequest sampleEnv "2024-05-01 10:00:05.000" sampleRequest
          "192.168.1.23" "aa:bb:cc:dd:ee:ff").content = "" := by
  refine ⟨by decide, by decide, by decide, by decide⟩

/-- C5, amended.  In every sequence of `LogRequest`, `LogResponse` and `Close` calls on a
session, once `Close` has been called no later call changes the text stored in the file: the
writes that later `LogRequest` and `LogResponse` calls still make are refused by the closed
handle. -/
theorem closed_session_stores_nothing (env : Env) (d : DebugLogger) (pre post : List Call) :
    (((d.run env pre).Close.1).run env post).content = (d.run env pre).content := by
  have hc := Close_isShut (d.run env pre)
  exact (run_isShut env post _ hc.1).2.trans hc.2

/-! ## Exchanges of separate workers -/

/-- Counting the steps of the workers below `n + 1`: those below `n`, and those of `n`. -/
theorem countP_worker_succ (q : Step → Bool) (n : Nat) (sched : List Step) :
    sched.countP (fun s => decide (s.worker < n + 1) && q s)
      = sched.countP (fun s => decide (s.worker < n) && q s)
        + sched.countP (fun s => (s.worker == n) && q s) := by
  induction sched with
  | nil => rfl
  | cons s rest ih =>
      simp only [List.countP_cons, ih]
      rcases Nat.lt_trichotomy s.worker n with h | h | h
      · have h1 : s.worker < n + 1 := by omega
        have h2 : ¬ s.worker = n := by omega
        cases hq : q s
        · simp [h, h1, h2]
        · simp [h, h1, h2]
          omega
      · cases hq : q s
        · simp [h]
        · simp [h]
          omega
      · have h1 : ¬ s.worker < n + 1 := by omega
        have h2 : ¬ s.worker = n := by omega
        have h3 : ¬ s.worker < n := by omega
        cases hq : q s <;> simp [h1, h2, h3]

/-- The request hooks of worker `i`, counted in its own steps and in the schedule. -/
theorem count_phasesOf (sched : List Step) (i : Nat) :
    (phasesOf sched i).count Phase.request
      = sched.countP (fun s => (s.worker == i) && (s.phase == Phase.request)) := by
  induction sched with
  | nil => rfl
  | cons s rest ih =>
      unfold phasesOf at ih ⊢
      by_cases hw : s.worker = i
      · by_cases hp : s.phase = Phase.request <;>
          simp [List.filter_cons, List.countP_cons, hw, hp, ih, List.count_cons]
      · simp [List.filter_cons, List.countP_cons, hw, ih]

/-- If every worker below `n` runs one request hook, the workers below `n` run `n`. -/
theorem countP_below (n : Nat) (sched : List Step)
    (h : ∀ i, i < n →
      sched.countP (fun s => (s.worker == i) && (s.phase == Phase.request)) = 1) :
    sched.countP (fun s => decide (s.worker < n) && (s.phase == Phase.request)) = n := by
  induction n with
  | zero => simp
  | succ k ih =>
      rw [countP_worker_succ, ih (fun i hi => h i (by omega)), h k (by omega)]

/-- A schedule of `n` exchanges has `n` request hooks. -/
theorem isSchedule_request_count (n : Nat) (sched : List Step)
    (hs : isSchedule n sched = true) :
    sched.countP (fun s => s.phase == Phase.request) = n := by
  simp only [isSchedule, Bool.and_eq_true, List.all_eq_true, decide_eq_true_eq,
    List.mem_range] at hs
  obtain ⟨hall, hphase⟩ := hs
  have h1 : ∀ i, i < n →
      sched.countP (fun s => (s.worker == i) && (s.phase == Phase.request)) = 1 := by
    intro i hi
    rw [← count_phasesOf]
    rcases hphase i hi with h | h <;> rw [h] <;> decide
  have h2 := countP_below n sched h1
  rw [← h2]
  apply List.countP_congr
  intro s hsm
  simp [hall s hsm]

set_option maxRecDepth 100000 in
/-- C9, as stated, fails.  In `overlappingSchedule` the second request arrives while the first
waits for the backend.  The transcript is then the request block of exchange 0, the two
blocks of exchange 1, and the response block of exchange 0: the request block and the
response block of exchange 0 do not form one contiguous run of the file. -/
theorem overlapping_exchanges_counterexample :
    isSchedule twoExchanges.length overlappingSchedule = true
      ∧ (runSchedule sampleEnv twoExchanges freshSession overlappingSchedule).content
        = blockOf sampleEnv twoExchanges ⟨0, Phase.request⟩
          ++ blockOf sampleEnv twoExchanges ⟨1, Phase.request⟩
          ++ blockOf sampleEnv twoExchanges ⟨1, Phase.response⟩
          ++ blockOf sampleEnv twoExchanges ⟨0, Phase.response⟩
      ∧ Contains (runSchedule sampleEnv twoExchanges freshSession overlappingSchedule).content
          (blockOf sampleEnv twoExchanges ⟨0, Phase.request⟩
            ++ blockOf sampleEnv twoExchanges ⟨0, Phase.response⟩) = false := by
  refine ⟨by decide, by decide, by decide⟩

/-! ## Executions step by step -/

/-- Calls made in order: first the one list, then the other. -/
theorem runOps_append (file : Option File) (a b : List FileOp) :
    runOps file (a ++ b) = runOps (runOps file a) b := by
  simp only [runOps, List.foldl_append]

/-- The file calls of hook calls that ran one after the other, list by list. -/
theorem opsOfHooks_append (ops : Step → List FileOp) (a b : List Step) :
    opsOfHooks ops (a ++ b) = opsOfHooks ops a ++ opsOfHooks ops b := by
  induction a with
  | nil => rfl
  | cons s rest ih =>
      show ops s ++ opsOfHooks ops (rest ++ b) = (ops s ++ opsOfHooks ops rest) ++ opsOfHooks ops b
      rw [ih, List.append_assoc]

/-- A step of a worker keeps the invariant of the executions. -/
theorem Inv_step (ops : Step → List FileOp) (hooks : Nat → List Step) (file0 : Option File)
    (hhooks : ∀ i, ∀ s ∈ hooks i, s.worker = i)
    (m m' : Machine) (i : Nat) (hinv : m.Inv ops hooks file0) (hstep : m.step i = some m') :
    m'.Inv ops hooks file0 := by
  obtain ⟨done, rem, hcase⟩ := hinv
  rcases hcase with ⟨hfree, hpend, hfile, hsplit⟩ | ⟨h, s, pre, post, hheld, hops, hpend, hcur, hfile, hsplit, hsplith⟩
  · have hp := hpend i
    cases hr : rem i with
    | nil =>
        rw [hr] at hp
        simp [Machine.step, hp, stepsOfHooks] at hstep
    | cons s r =>
        rw [hr] at hp
        simp only [stepsOfHooks] at hp
        simp only [Machine.step, hp, hfree, if_true, Option.some.injEq] at hstep
        subst hstep
        refine ⟨done, Function.update rem i r, Or.inr ⟨i, s, [], ops s, rfl, rfl, ?_, ?_, ?_, ?_, ?_⟩⟩
        · intro j hj
          simp only [Function.update_noteq hj]
          exact hpend j
        · simp only [Function.update_same]
        · simpa using hfile
        · intro j hj
          simp only [Function.update_noteq hj]
          exact hsplit j
        · simp only [Function.update_same]
          have := hsplit i
          rw [hr] at this
          exact this
  · by_cases hi : i = h
    · subst hi
      cases post with
      | nil =>
          simp only [List.map_nil, List.nil_append] at hcur
          simp only [Machine.step, hcur, Option.some.injEq] at hstep
          subst hstep
          have hmem : s ∈ hooks i := by
            rw [← hsplith]
            simp
          have hw : s.worker = i := hhooks i s hmem
          refine ⟨done ++ [s], rem, Or.inl ⟨rfl, ?_, ?_, ?_⟩⟩
          · intro j
            by_cases hj : j = i
            · subst hj
              simp only [Function.update_same]
            · simp only [Function.update_noteq hj]
              exact hpend j hj
          · simp only [opsOfHooks_append, opsOfHooks, List.append_nil]
            rw [hfile, hops, List.append_nil]
          · intro j
            by_cases hj : j = i
            · subst hj
              simp only [List.filter_append, List.filter_cons, hw, beq_self_eq_true, if_true,
                List.filter_nil, List.append_assoc, List.singleton_append]
              exact hsplith
            · have hne : (s.worker == j) = false := by
                rw [hw]
                simpa using fun h => hj h.symm
              simp only [List.filter_append, List.filter_cons, hne, List.filter_nil,
                Bool.false_eq_true, if_false, List.append_nil]
              exact hsplit j hj
      | cons op post' =>
          simp only [List.map_cons, List.cons_append] at hcur
          simp only [Machine.step, hcur, Option.some.injEq] at hstep
          subst hstep
          refine ⟨done, rem, Or.inr ⟨i, s, pre ++ [op], post', hheld, ?_, ?_, ?_, ?_, hsplit, hsplith⟩⟩
          · simp only [hops, List.append_assoc, List.singleton_append]
          · intro j hj
            simp only [Function.update_noteq hj]
            exact hpend j hj
          · simp only [Function.update_same]
          · simp only [hfile, ← List.append_assoc, runOps_append (file0) _ [op]]
            rfl
    · have hp := hpend i hi
      cases hr : rem i with
      | nil =>
          rw [hr] at hp
          simp [Machine.step, hp, stepsOfHooks] at hstep
      | cons s' r =>
          rw [hr] at hp
          simp only [stepsOfHooks] at hp
          simp [Machine.step, hp, hheld] at hstep

/-- An execution keeps the invariant of the executions. -/
theorem Inv_exec (ops : Step → List FileOp) (hooks : Nat → List Step) (file0 : Option File)
    (hhooks : ∀ i, ∀ s ∈ hooks i, s.worker = i)
    (tr : List Nat) (m m' : Machine) (hinv : m.Inv ops hooks file0)
    (hexec : m.exec tr = some m') : m'.Inv ops hooks file0 := by
  induction tr generalizing m with
  | nil =>
      simp only [Machine.exec, Option.some.injEq] at hexec
      subst hexec
      exact hinv
  | cons i rest ih =>
      simp only [Machine.exec] at hexec
      cases hs : m.step i with
      | none => simp [hs] at hexec
      | some m1 =>
          simp only [hs] at hexec
          exact ih m1 (Inv_step ops hooks file0 hhooks m m1 i hinv hs) hexec

/-- When every worker that has hooks has run all its steps, the mutex is free, every hook
call is done, and the file holds the calls of the hook calls in the order in which they took
the mutex. -/
theorem Inv_finished (ops : Step → List FileOp) (hooks : Nat → List Step) (file0 : Option File)
    (m : Machine) (hinv : m.Inv ops hooks file0)
    (hfin : ∀ i, hooks i ≠ [] → m.pending i = []) :
    ∃ done : List Step, (∀ i, (done.filter fun s => s.worker == i) = hooks i)
      ∧ m.file = runOps file0 (opsOfHooks ops done) := by
  obtain ⟨done, rem, hcase⟩ := hinv
  rcases hcase with ⟨_, hpend, hfile, hsplit⟩ | ⟨h, s, pre, post, _, _, _, hcur, _, _, hsplith⟩
  · refine ⟨done, ?_, hfile⟩
    intro i
    have hr : rem i = [] := by
      by_cases hh : hooks i = []
      · have := hsplit i
        rw [hh] at this
        exact (List.append_eq_nil.mp this).2
      · have hp := hpend i
        rw [hfin i hh] at hp
        cases hr : rem i with
        | nil => rfl
        | cons s r =>
            rw [hr] at hp
            simp [stepsOfHooks] at hp
    have := hsplit i
    rw [hr, List.append_nil] at this
    exact this
  · have hh : hooks h ≠ [] := by
      rw [← hsplith]
      simp
    rw [hfin h hh] at hcur
    cases post <;> simp at hcur

/-- On an active session `LogRequest` makes the calls of `LogRequestOps` on the file, in order. -/
theorem LogRequest_runOps (d : DebugLogger) (env : Env) (now : String) (r : Request)
    (clientIP macAddr : String) (hact : d.active = true) :
    d.LogRequest env now r clientIP macAddr
      = { d with file := runOps d.file (LogRequestOps env now r clientIP macAddr) } := by
  cases hdump : env.DumpRequest r <;>
    simp only [DebugLogger.LogRequest, LogRequestOps, hact, hdump, runOps, applyOp, Write,
      Bool.not_true, Bool.false_eq_true, if_false, List.cons_append, List.nil_append,
      List.foldl_cons, List.foldl_nil]

/-- On an active session `LogResponse` makes the calls of `LogResponseOps` on the file, in
order. -/
theorem LogResponse_runOps (d : DebugLogger) (env : Env) (now : String) (resp : Response)
    (hact : d.active = true) :
    (d.LogResponse env now resp).1
      = { d with file := runOps d.file (LogResponseOps env now resp) } := by
  cases hdump : env.DumpResponse { resp with Body := some (NopCloser (readBody resp)) } <;>
    simp only [DebugLogger.LogResponse, LogResponseOps, hact, hdump, runOps, applyOp, Write,
      Bool.not_true, Bool.false_eq_true, if_false, List.cons_append, List.nil_append,
      List.foldl_cons, List.foldl_nil]

/-- On an active session a hook call makes its file calls, in order. -/
theorem step_runOps (env : Env) (xs : List Exchange) (d : DebugLogger) (s : Step)
    (hact : d.active = true) :
    step env xs d s = { d with file := runOps d.file (opsOfStep env xs s) } := by
  unfold step opsOfStep
  cases xs[s.worker]? with
  | none => rfl
  | some x =>
      cases s.phase with
      | request => exact LogRequest_runOps d env x.reqTime x.req _ _ hact
      | response => exact LogResponse_runOps d env x.respTime x.resp hact

/-- On an active session the hooks called one at a time make their file calls, in order. -/
theorem runSchedule_runOps (env : Env) (xs : List Exchange) (order : List Step)
    (d : DebugLogger) (hact : d.active = true) :
    runSchedule env xs d order
      = { d with file := runOps d.file (opsOfHooks (opsOfStep env xs) order) } := by
  induction order generalizing d with
  | nil => rfl
  | cons s rest ih =>
      have hs := step_runOps env xs d s hact
      have hact' : (step env xs d s).active = true := by rw [hs]; exact hact
      have := ih (step env xs d s) hact'
      simp only [runSchedule, List.foldl_cons] at this ⊢
      rw [this, hs]
      simp only [opsOfHooks, runOps_append]

/-- On an open file, calls other than `Close` append the texts of the writes and are recorded;
the file stays open. -/
theorem runOps_open (ops : List FileOp) (f : File) (hopen : f.closed = false)
    (hops : ∀ op ∈ ops, op ≠ FileOp.close) :
    runOps (some f) ops
      = some { f with content := f.content ++ textOfOps ops, calls := f.calls ++ ops } := by
  induction ops generalizing f with
  | nil => simp [runOps, textOfOps]
  | cons op rest ih =>
      have hrest : ∀ o ∈ rest, o ≠ FileOp.close := fun o ho => hops o (List.mem_cons_of_mem op ho)
      cases op with
      | write text =>
          have := ih { f with content := f.content ++ text, calls := f.calls ++ [FileOp.write text] }
            hopen hrest
          simp only [runOps, List.foldl_cons, applyOp, WriteString, hopen, Bool.false_eq_true,
            if_false] at this ⊢
          rw [this]
          simp only [textOfOps, String.append_assoc, List.append_assoc, List.singleton_append]
      | sync =>
          have := ih { f with calls := f.calls ++ [FileOp.sync] } hopen hrest
          simp only [runOps, List.foldl_cons, applyOp, Sync, hopen, Bool.false_eq_true,
            if_false] at this ⊢
          rw [this]
          simp only [textOfOps, List.append_assoc, List.singleton_append]
      | close => exact absurd rfl (hops FileOp.close (List.mem_cons_self _ _))

/-- No hook call closes the file. -/
theorem opsOfStep_no_close (env : Env) (xs : List Exchange) (s : Step) :
    ∀ op ∈ opsOfStep env xs s, op ≠ FileOp.close := by
  unfold opsOfStep
  cases xs[s.worker]? with
  | none => simp
  | some x =>
      cases s.phase with
      | request =>
          cases hdump : env.DumpRequest x.req <;> simp [LogRequestOps, hdump]
      | response =>
          cases hdump : env.DumpResponse
              { x.resp with Body := some (NopCloser (readBody x.resp)) } <;>
            simp [LogResponseOps, hdump]

/-- No sequence of hook calls closes the file. -/
theorem opsOfHooks_no_close (env : Env) (xs : List Exchange) (order : List Step) :
    ∀ op ∈ opsOfHooks (opsOfStep env xs) order, op ≠ FileOp.close := by
  induction order with
  | nil => simp [opsOfHooks]
  | cons s rest ih =>
      intro op hop
      simp only [opsOfHooks, List.mem_append] at hop
      rcases hop with h | h
      · exact opsOfStep_no_close env xs s op h
      · exact ih op h

/-- The text of calls made in order, list by list. -/
theorem textOfOps_append (a b : List FileOp) :
    textOfOps (a ++ b) = textOfOps a ++ textOfOps b := by
  induction a with
  | nil => simp [textOfOps]
  | cons op rest ih =>
      cases op <;> simp [textOfOps, ih, String.append_assoc]

/-- The text a hook call writes is its block. -/
theorem textOfOps_opsOfStep (env : Env) (xs : List Exchange) (s : Step) :
    textOfOps (opsOfStep env xs s) = blockText env xs s := by
  unfold opsOfStep blockText
  cases xs[s.worker]? with
  | none => rfl
  | some x =>
      cases s.phase with
      | request =>
          cases hdump : env.DumpRequest x.req <;>
            simp only [LogRequestOps, requestBlockText, hdump, textOfOps, List.cons_append,
              List.nil_append, String.append_assoc, String.append_empty]
      | response =>
          cases hdump : env.DumpResponse
              { x.resp with Body := some (NopCloser (readBody x.resp)) } <;>
            simp only [LogResponseOps, responseBlockText, hdump, textOfOps, List.cons_append,
              List.nil_append, String.append_assoc, String.append_empty]

/-- The text hook calls write one after the other is their blocks in order. -/
theorem textOfOps_opsOfHooks (env : Env) (xs : List Exchange) (order : List Step) :
    textOfOps (opsOfHooks (opsOfStep env xs) order)
      = concatBlocks (order.map (blockText env xs)) := by
  induction order with
  | nil => rfl
  | cons s rest ih =>
      simp only [opsOfHooks, textOfOps_append, textOfOps_opsOfStep, ih, List.map_cons,
        concatBlocks]

/-- At the start of an active session the invariant of the executions holds. -/
theorem start_Inv (env : Env) (xs : List Exchange) (d : DebugLogger) (hact : d.active = true) :
    (Machine.start env xs d).Inv (opsOfStep env xs) (hooksOfWorker xs.length) d.file := by
  refine ⟨[], hooksOfWorker xs.length, Or.inl ⟨rfl, ?_, rfl, fun i => rfl⟩⟩
  intro i
  by_cases hi : i < xs.length
  · have hx : xs[i]? = some xs[i] := List.getElem?_eq_getElem hi
    simp only [Machine.start, hx, workerSteps, hookSteps, hact, hooksOfWorker, hi, if_true,
      stepsOfHooks, opsOfStep, Bool.not_true, Bool.false_eq_true, if_false, List.cons_append,
      List.append_assoc, List.nil_append, List.singleton_append]
  · have hx : xs[i]? = none := List.getElem?_eq_none (by omega)
    simp only [Machine.start, hx, hooksOfWorker, hi, if_false, stepsOfHooks]

/-- The hooks of a worker are its own. -/
theorem hooksOfWorker_worker (n i : Nat) : ∀ s ∈ hooksOfWorker n i, s.worker = i := by
  intro s hs
  unfold hooksOfWorker at hs
  split at hs
  · simp only [List.mem_cons, List.mem_singleton, List.not_mem_nil, or_false] at hs
    rcases hs with h | h <;> rw [h]
  · simp at hs


/-- A text that starts with two characters other than the first two of `t` is not `t`. -/
theorem ne_of_take_two (lit rest t : String) (hl : 2 ≤ lit.data.length)
    (hne : lit.data.take 2 ≠ t.data.take 2) : lit ++ rest ≠ t := by
  intro h
  apply hne
  rw [← h, String.data_append, List.take_append_of_le_length hl]

set_option maxRecDepth 20000 in
/-- The calls of `LogRequest` write the opening separator once, if the dump is not that text. -/
theorem count_LogRequestOps (env : Env) (now : String) (r : Request) (clientIP macAddr : String)
    (hdump : env.DumpRequest r ≠ .ok openingSeparator) :
    (LogRequestOps env now r clientIP macAddr).count (FileOp.write openingSeparator) = 1 := by
  have h1 : "REQUEST at " ++ now ++ "\n" ≠ openingSeparator := by
    rw [String.append_assoc]
    exact ne_of_take_two _ _ _ (by decide) (by decide)
  have h2 : "Client IP: " ++ clientIP ++ " | MAC: " ++ macAddr ++ "\n" ≠ openingSeparator := by
    simp only [String.append_assoc]
    exact ne_of_take_two _ _ _ (by decide) (by decide)
  have h3 : Repeat "=" 80 ++ "\n" ≠ openingSeparator := by decide
  have h4 : "\n" ≠ openingSeparator := by decide
  have h0 : "\n" ++ Repeat "=" 80 ++ "\n" = openingSeparator := rfl
  cases hd : env.DumpRequest r with
  | error err =>
      have h5 : "Error dumping request: " ++ err ++ "\n" ≠ openingSeparator := by
        rw [String.append_assoc]
        exact ne_of_take_two _ _ _ (by decide) (by decide)
      simp [LogRequestOps, hd, List.count_cons, h0, h1, h2, h3, h5]
  | ok dump =>
      have h5 : dump ≠ openingSeparator := by
        intro h
        apply hdump
        rw [hd, h]
      simp [LogRequestOps, hd, List.count_cons, h0, h1, h2, h3, h4, h5]

set_option maxRecDepth 20000 in
/-- The calls of `LogResponse` never write the opening separator, if the dump is not that
text. -/
theorem count_LogResponseOps (env : Env) (now : String) (resp : Response)
    (hdump : env.DumpResponse { resp with Body := some (NopCloser (readBody resp)) }
      ≠ .ok openingSeparator) :
    (LogResponseOps env now resp).count (FileOp.write openingSeparator) = 0 := by
  have h1 : "\nRESPONSE at " ++ now ++ "\n" ≠ openingSeparator := by
    rw [String.append_assoc]
    exact ne_of_take_two _ _ _ (by decide) (by decide)
  have h3 : Repeat "-" 80 ++ "\n" ≠ openingSeparator := by decide
  have h4 : "\n" ≠ openingSeparator := by decide
  cases hd : env.DumpResponse { resp with Body := some (NopCloser (readBody resp)) } with
  | error err =>
      have h5 : "Error dumping response: " ++ err ++ "\n" ≠ openingSeparator := by
        rw [String.append_assoc]
        exact ne_of_take_two _ _ _ (by decide) (by decide)
      simp [LogResponseOps, hd, List.count_cons, h1, h3, h5]
  | ok dump =>
      have h5 : dump ≠ openingSeparator := by
        intro h
        apply hdump
        rw [hd, h]
      simp [LogResponseOps, hd, List.count_cons, h1, h3, h4, h5]

/-- The writes of the opening separator among the calls of hook calls are as many as the
request hooks among them. -/
theorem count_opsOfHooks (env : Env) (xs : List Exchange) (order : List Step)
    (hworkers : ∀ s ∈ order, s.worker < xs.length)
    (hdumps : ∀ x ∈ xs, env.DumpRequest x.req ≠ .ok openingSeparator
      ∧ env.DumpResponse { x.resp with Body := some (NopCloser (readBody x.resp)) }
          ≠ .ok openingSeparator) :
    (opsOfHooks (opsOfStep env xs) order).count (FileOp.write openingSeparator)
      = order.countP (fun s => s.phase == Phase.request) := by
  induction order with
  | nil => rfl
  | cons s rest ih =>
      have hrest := ih (fun t ht => hworkers t (List.mem_cons_of_mem s ht))
      have hs : s.worker < xs.length := hworkers s (List.mem_cons_self s rest)
      have hx : xs[s.worker]? = some xs[s.worker] := List.getElem?_eq_getElem hs
      have hd := hdumps xs[s.worker] (List.getElem_mem _)
      simp only [opsOfHooks, List.count_append, hrest, List.countP_cons]
      cases hp : s.phase with
      | request =>
          have := count_LogRequestOps env xs[s.worker].reqTime xs[s.worker].req
            (getClientInfo env xs[s.worker].req).1 (getClientInfo env xs[s.worker].req).2 hd.1
          simp only [opsOfStep, hx, hp, this]
          simp
          omega
      | response =>
          have := count_LogResponseOps env xs[s.worker].respTime xs[s.worker].resp hd.2
          simp only [opsOfStep, hx, hp, this]
          simp

/-- C9, amended.  Workers share one active session whose file is open; every step of a hook
(taking the mutex, one call on the file, releasing the mutex) is a step of its own, and the
steps of the workers interleave in any order the mutex admits.  When all workers have run
all their steps, the hook calls can be put in an order, each worker's request hook before its
response hook, such that the file is the file the hooks leave when called one at a time in
that order, and its text is the old text followed by the blocks of the hook calls, whole and
in that order: the bytes of no block are split by another block.  The number of request
blocks equals the number of exchanges, also when counted in the record of the file as the
writes of the opening separator, if no dump is that text.  The request block and the response
block of one exchange need not be adjacent. -/
theorem concurrent_transcript (env : Env) (xs : List Exchange) (d : DebugLogger) (f0 : File)
    (tr : List Nat) (m : Machine)
    (hact : d.active = true) (hfile : d.file = some f0) (hopen : f0.closed = false)
    (hexec : (Machine.start env xs d).exec tr = some m)
    (hfin : m.finished xs.length = true) :
    ∃ (order : List Step) (f : File),
      (∀ i, i < xs.length → phasesOf order i = [Phase.request, Phase.response])
      ∧ (∀ s ∈ order, s.worker < xs.length)
      ∧ m.file = some f
      ∧ (runSchedule env xs d order).file = some f
      ∧ f.content = f0.content ++ concatBlocks (order.map (blockText env xs))
      ∧ order.countP (fun s => s.phase == Phase.request) = xs.length
      ∧ ((∀ x ∈ xs, env.DumpRequest x.req ≠ .ok openingSeparator
            ∧ env.DumpResponse { x.resp with Body := some (NopCloser (readBody x.resp)) }
                ≠ .ok openingSeparator) →
          requestBlocksBegun f.calls = requestBlocksBegun f0.calls + xs.length) := by
  have hinv := Inv_exec (opsOfStep env xs) (hooksOfWorker xs.length) d.file
    (hooksOfWorker_worker xs.length) tr _ m (start_Inv env xs d hact) hexec
  have hfin' : ∀ i, hooksOfWorker xs.length i ≠ [] → m.pending i = [] := by
    intro i hi
    have hlt : i < xs.length := by
      by_contra hge
      exact hi (by simp [hooksOfWorker, hge])
    simp only [Machine.finished, List.all_eq_true, List.mem_range, List.isEmpty_iff] at hfin
    exact hfin i hlt
  obtain ⟨order, hsplit, hmfile⟩ := Inv_finished _ _ _ m hinv hfin'
  have hphases : ∀ i, i < xs.length → phasesOf order i = [Phase.request, Phase.response] := by
    intro i hi
    simp only [phasesOf, hsplit i, hooksOfWorker, hi, if_true, List.map_cons, List.map_nil]
  have hworkers : ∀ s ∈ order, s.worker < xs.length := by
    intro s hs
    have hmem : s ∈ order.filter (fun t => t.worker == s.worker) := by
      simp [List.mem_filter, hs]
    rw [hsplit s.worker] at hmem
    by_contra hge
    simp [hooksOfWorker, hge] at hmem
  have hsched : isSchedule xs.length order = true := by
    simp only [isSchedule, Bool.and_eq_true, List.all_eq_true, decide_eq_true_eq,
      List.mem_range]
    exact ⟨hworkers, fun i hi => Or.inl (hphases i hi)⟩
  have hrun := runOps_open (opsOfHooks (opsOfStep env xs) order) f0 hopen
    (opsOfHooks_no_close env xs order)
  rw [hfile] at hmfile
  rw [hrun] at hmfile
  refine ⟨order, _, hphases, hworkers, hmfile, ?_, ?_, ?_, ?_⟩
  · rw [runSchedule_runOps env xs order d hact, hfile, hrun]
  · simp only [textOfOps_opsOfHooks]
  · exact isSchedule_request_count xs.length order hsched
  · intro hdumps
    simp only [requestBlocksBegun, List.count_append,
      count_opsOfHooks env xs order hworkers hdumps,
      isSchedule_request_count xs.length order hsched]

set_option maxRecDepth 100000 in
/-- Witness of `concurrent_transcript`: `overlappingTrace` is an execution of the two exchanges
on a fresh session, at its end both workers have run all their steps, and the theorem applies
to it.  The file it leaves holds the text the hooks leave when called in the order of
`overlappingSchedule`.  `contendedTrace`, in which worker 1 would take the mutex that
worker 0 holds, is no execution. -/
theorem concurrent_transcript_witness :
    (∃ m, (Machine.start sampleEnv twoExchanges freshSession).exec overlappingTrace = some m
      ∧ m.finished twoExchanges.length = true
      ∧ (m.file.map File.content)
          = some (runSchedule sampleEnv twoExchanges freshSession overlappingSchedule).content
      ∧ ∃ (order : List Step) (f : File),
          (∀ i, i < twoExchanges.length → phasesOf order i = [Phase.request, Phase.response])
          ∧ (∀ s ∈ order, s.worker < twoExchanges.length)
          ∧ m.file = some f
          ∧ (runSchedule sampleEnv twoExchanges freshSession order).file = some f
          ∧ f.content = (File.created "airprint-debug.log").content
              ++ concatBlocks (order.map (blockText sampleEnv twoExchanges))
          ∧ order.countP (fun s => s.phase == Phase.request) = twoExchanges.length
          ∧ requestBlocksBegun f.calls
              = requestBlocksBegun (File.created "airprint-debug.log").calls
                + twoExchanges.length)
      ∧ ((Machine.start sampleEnv twoExchanges freshSession).exec contendedTrace).isSome
          = false := by
  have hrun :
      (match (Machine.start sampleEnv twoExchanges freshSession).exec overlappingTrace with
        | some m => m.finished twoExchanges.length
            && decide ((m.file.map File.content) = some
                (runSchedule sampleEnv twoExchanges freshSession overlappingSchedule).content)
        | none => false) = true := by
    decide
  refine ⟨?_, by decide⟩
  cases hm : (Machine.start sampleEnv twoExchanges freshSession).exec overlappingTrace with
  | none => simp [hm] at hrun
  | some m =>
      simp only [hm, Bool.and_eq_true, decide_eq_true_eq] at hrun
      obtain ⟨order, f, h1, h2, h3, h4, h5, h6, h7⟩ :=
        concurrent_transcript sampleEnv twoExchanges freshSession
          (File.created "airprint-debug.log") overlappingTrace m (by decide) (by decide)
          (by decide) hm hrun.1
      exact ⟨m, rfl, hrun.1, hrun.2, order, f, h1, h2, h3, h4, h5, h6, h7 (by decide)⟩

end AirPrint
